import Mathlib

/-!
Shallow embedding of the message-feed, composer and navigation logic of a
Slack-style chat client (React/TypeScript).  Each definition is translated
from the corresponding source function; timestamps that the source stores as
ISO strings and compares via `Date.getTime()` are modelled directly as epoch
milliseconds (`Int`), and the single-threaded event handlers are modelled as
pure state-transition functions.
-/

namespace SlackClone

/-- A message record (interface `Message` in the source).  `createdAt` and
`updatedAt` hold the epoch-millisecond value that the source obtains with
`new Date(createdAt).getTime()`. -/
structure Message where
  id : String
  channelId : String
  userId : String
  content : String
  messageType : String
  threadId : Option String := none
  replyCount : Nat := 0
  createdAt : Int
  updatedAt : Int
deriving Repr, DecidableEq

/-- `lowerStr s`: the source's `String.prototype.toLowerCase()`, modelled
per-character with `Char.toLower`. -/
def lowerStr (s : String) : String := String.mk (s.data.map Char.toLower)

/-- JavaScript `String.prototype.trim()`: remove whitespace from both ends. -/
def jsTrim (s : String) : String :=
  String.mk (((s.data.dropWhile Char.isWhitespace).reverse.dropWhile Char.isWhitespace).reverse)

/-- `hasSub n h`: JavaScript `h.includes(n)` — `n` occurs as a contiguous
substring of `h` (character lists). -/
def hasSub (n : List Char) : List Char → Bool
  | [] => n.isEmpty
  | c :: rest => n.isPrefixOf (c :: rest) || hasSub n rest

/-- The filter predicate of `MessageList`:
`if (!searchQuery.trim()) return true;
 return message.content.toLowerCase().includes(searchQuery.toLowerCase())`. -/
def messageMatches (searchQuery : String) (m : Message) : Bool :=
  if jsTrim searchQuery = "" then true
  else hasSub (lowerStr searchQuery).data (lowerStr m.content).data

/-- `filteredMessages` of `MessageList`: `messages.filter(...)`. -/
def filterMessages (messages : List Message) (searchQuery : String) : List Message :=
  messages.filter (messageMatches searchQuery)

/-- Spec-side predicate, written from the spec's words: the message body
contains the filter text as a case-insensitive substring.  Kept separate from
`messageMatches` (the source predicate) so the two can be compared. -/
def specMatches (filterText : String) (m : Message) : Bool :=
  hasSub (lowerStr filterText).data (lowerStr m.content).data

/-- The grouping rule of `MessageList` for a message with a previous message:
`prevMessage.userId !== message.userId ||
 new Date(message.createdAt).getTime() - new Date(prevMessage.createdAt).getTime() > 300000`. -/
def showAvatar (prev m : Message) : Bool :=
  prev.userId != m.userId || decide ((300000 : Int) < m.createdAt - prev.createdAt)

/-- Tail of the per-index map in `MessageList`: each message is paired with
its grouping decision computed from the positionally previous message of the
(filtered) list. -/
def feedGo (prev : Message) : List Message → List (Message × Bool)
  | [] => []
  | m :: rest => (m, showAvatar prev m) :: feedGo m rest

/-- The per-index map of `MessageList`: the first message has no previous
message (`!prevMessage`), hence decision `true`; later decisions come from
`showAvatar` against the positional predecessor. -/
def feedEntries : List Message → List (Message × Bool)
  | [] => []
  | m :: rest => (m, true) :: feedGo m rest

/-- The three render states of `MessageList`. -/
inductive FeedView where
  | emptyConversation : FeedView
  | noResults (query : String) : FeedView
  | feed (entries : List (Message × Bool)) : FeedView
deriving Repr, DecidableEq

/-- `MessageList` as a function: filter, then either an empty-state screen
(`searchQuery.trim()` distinguishes "no results" from "beginning of your
conversation") or the list of messages with grouping decisions. -/
def assemble (messages : List Message) (searchQuery : String) : FeedView :=
  let filtered := filterMessages messages searchQuery
  if filtered.isEmpty then
    if jsTrim searchQuery = "" then .emptyConversation else .noResults searchQuery
  else
    .feed (feedEntries filtered)

/-- Case-insensitive prefix test on character lists: the pattern matches at
the head of the text under JavaScript's `i` flag (modelled with
`Char.toLower`). -/
def isPrefixCI : List Char → List Char → Bool
  | [], _ => true
  | _ :: _, [] => false
  | a :: as, b :: bs => (a.toLower == b.toLower) && isPrefixCI as bs

/-- `s.contains t` case-insensitively, for a pattern given as a raw character
list (used to state that a text region holds no match). -/
def containsCI (t : List Char) : List Char → Bool
  | [] => t.isEmpty
  | c :: rest => isPrefixCI t (c :: rest) || containsCI t rest

/-- `'<mark class="bg-yellow-200 dark:bg-yellow-800">'`, the opening tag the
source splices around each match. -/
def markOpen : String := "<mark class=\"bg-yellow-200 dark:bg-yellow-800\">"

/-- `'</mark>'`, the closing tag. -/
def markClose : String := "</mark>"

/-- The segment decomposition performed by
`text.replace(new RegExp('(' + searchTerm + ')', 'gi'), ...)` for a pattern
with no regex metacharacters: scan left to right; at a case-insensitive match
of the pattern `t0 :: ts` emit a highlighted segment holding the matched
characters and resume after it; otherwise emit the current character as
unhighlighted text (merged into the current unhighlighted run). -/
def hlSegs (t0 : Char) (ts : List Char) : List Char → List (Bool × List Char)
  | [] => []
  | c :: rest =>
    if isPrefixCI (t0 :: ts) (c :: rest) then
      (true, (c :: rest).take (ts.length + 1)) :: hlSegs t0 ts (rest.drop ts.length)
    else
      match hlSegs t0 ts rest with
      | (false, seg) :: more => (false, c :: seg) :: more
      | segs => (false, [c]) :: segs
termination_by l => l.length
decreasing_by
  · simpa using Nat.lt_succ_of_le (List.length_drop ts.length rest ▸ Nat.sub_le rest.length ts.length)
  · simp

/-- Flatten the segments back into text, wrapping each highlighted segment in
the mark tags — this reproduces the string returned by the source's
`replace` call (`'<mark ...>$1</mark>'` keeps the matched characters). -/
def renderSegs : List (Bool × List Char) → List Char
  | [] => []
  | (hl, seg) :: rest =>
    (if hl then markOpen.data ++ seg ++ markClose.data else seg) ++ renderSegs rest

/-- The characters to which JavaScript regex syntax assigns special meaning
inside a pattern handed to the `RegExp` constructor. -/
def jsRegexSpecial (c : Char) : Bool :=
  c == '\\' || c == '^' || c == '$' || c == '.' || c == '|' || c == '?' ||
  c == '*' || c == '+' || c == '(' || c == ')' || c == '[' || c == ']' ||
  c == '\x7b' || c == '\x7d'

/-- The search terms that `new RegExp('(' + term + ')', 'gi')` treats as the
literal term: none of the term's characters is regex syntax.  Only for such
terms is the constructed regex guaranteed valid and equivalent to a
case-insensitive literal search; a term containing special characters is
interpreted as regex syntax instead (e.g. `'a+b'` matches runs of `a`
followed by `b`, never the literal text `a+b`, and an invalid pattern such
as `'('` makes the constructor throw), so such terms are outside the
faithful domain of the literal model below. -/
def regexLiteral (term : String) : Bool :=
  term.data.all (fun c => !jsRegexSpecial c)

/-- `highlightSearchTerm` of `MessageItem`:
`if (!searchTerm.trim()) return text;
 const regex = new RegExp('(' + searchTerm + ')', 'gi');
 return text.replace(regex, '<mark class="...">$1</mark>')`.
The embedding treats the search term as a literal pattern; this coincides
with the source's regex behaviour exactly when `regexLiteral searchTerm`
holds (no regex metacharacters in the term), and theorems quantifying over
non-blank terms carry that hypothesis.  The `[]` case is unreachable (an
empty term trims to the empty string). -/
def highlightSearchTerm (text searchTerm : String) : String :=
  if jsTrim searchTerm = "" then text
  else
    match searchTerm.data with
    | [] => text
    | t0 :: ts => String.mk (renderSegs (hlSegs t0 ts text.data))

/-- What the message body renders to in `MessageItem`: either a markdown tree
built from a raw input string, or the literal unsupported-type placeholder. -/
inductive RenderedBody where
  | markdown (raw : String) : RenderedBody
  | unsupported (text : String) : RenderedBody
deriving Repr, DecidableEq

/-- The body branch of `MessageItem`: when `message.messageType === 'text'`
the raw text handed to the markdown renderer is
`searchQuery ? highlightSearchTerm(message.content, searchQuery) : message.content`
(highlighting happens on the raw text before markdown parsing); any other
type tag renders the fixed placeholder, and no exception is raised (the
embedding is a total function). -/
def renderBody (m : Message) (searchQuery : String) : RenderedBody :=
  if m.messageType = "text" then
    .markdown (if searchQuery = "" then m.content
               else highlightSearchTerm m.content searchQuery)
  else
    .unsupported ("Unsupported message type: " ++ m.messageType)

/-- The state of `MessageInput`: the draft (`message`), `isPreviewMode` and
`isExpanded`. -/
structure ComposerState where
  message : String
  isPreviewMode : Bool
  isExpanded : Bool
deriving Repr, DecidableEq

/-- `handleSend` of `MessageInput`:
`if (!message.trim()) return;
 onSendMessage(message.trim());
 setMessage(''); setIsPreviewMode(false); setIsExpanded(false)`.
Returns the new composer state and the content passed to the send callback
(`none` when the callback is not invoked). -/
def handleSend (s : ComposerState) : ComposerState × Option String :=
  if jsTrim s.message = "" then (s, none)
  else ({ message := "", isPreviewMode := false, isExpanded := false },
        some (jsTrim s.message))

/-- The preview toggle of `MessageInput`'s toolbar:
`setIsPreviewMode(!isPreviewMode)`. -/
def togglePreview (s : ComposerState) : ComposerState :=
  { s with isPreviewMode := !s.isPreviewMode }

/-- Outcome toasts of `confirmDelete` in `MessageItem`: the success toast
("Message deleted") or the destructive error toast ("Failed to delete
message. Please try again."). -/
inductive DeleteNotice where
  | deleted : DeleteNotice
  | failed : DeleteNotice
deriving Repr, DecidableEq

/-- `handleMessageDeleted` of `ChatArea`:
`setMessages(prev => prev.filter(msg => msg.id !== messageId))`. -/
def handleMessageDeleted (msgs : List Message) (messageId : String) : List Message :=
  msgs.filter (fun msg => msg.id != messageId)

/-- `confirmDelete` of `MessageItem` composed with `ChatArea`'s local-state
update: `await blink.db.messages.delete(message.id)`; on success show the
success toast and invoke `onMessageDeleted(message.id)` (which filters the
local list); on a thrown error show the error toast and leave the list
untouched.  `remoteOk` models whether the remote delete call succeeds. -/
def confirmDelete (remoteOk : Bool) (msgs : List Message) (messageId : String) :
    List Message × DeleteNotice :=
  if remoteOk then (handleMessageDeleted msgs messageId, .deleted)
  else (msgs, .failed)

/-- A workspace record (interface `Group` in `App.tsx`).  `createdAt` is the
epoch-millisecond value the remote store assigns at creation. -/
structure Group where
  id : String
  name : String
  description : Option String := none
  createdBy : String
  createdAt : Int
deriving Repr, DecidableEq

/-- A workspace-membership record (collection `groupMembers`). -/
structure GroupMember where
  id : String
  groupId : String
  userId : String
  role : String
deriving Repr, DecidableEq

/-- A channel record (interface `Channel`), with the fields the `create`
call populates. -/
structure Channel where
  id : String
  groupId : String
  name : String
  description : Option String := none
  isPrivate : Bool
  createdBy : String
deriving Repr, DecidableEq

/-- The remote document store as seen through `blink.db`: the three
collections `loadGroups` reads and writes. -/
structure Db where
  groups : List Group
  groupMembers : List GroupMember
  channels : List Channel
deriving Repr, DecidableEq

/-- The navigator's component state in `App.tsx`: `groups`, `channels`,
`activeGroup`, `activeChannel`. -/
structure NavState where
  groups : List Group
  channels : List Channel
  activeGroup : Option String
  activeChannel : Option String
deriving Repr, DecidableEq

/-- `loadGroups` of `App.tsx` as a transition on the store and the
navigator state.  With memberships present: fetch each membership's group
individually, sort descending by `createdAt`, `setGroups`, and set the first
group active only when none is selected (the store is not written).  With
zero memberships: create the default workspace ("General"), one admin
membership for the user, and the default channel ("general"), then select
both.  `now` stands for `Date.now()` (used in the generated record ids) and
for the creation timestamp the store assigns; the query's `orderBy joinedAt`
only permutes the memberships and is not modelled (the created membership
records carry no `joinedAt` field). -/
def loadGroups (db : Db) (nav : NavState) (userId : String) (now : Int) :
    Db × NavState :=
  let userGroups := db.groupMembers.filter (fun gm => gm.userId == userId)
  if userGroups.length > 0 then
    let groupsData := userGroups.filterMap
      (fun gm => (db.groups.filter (fun g => g.id == gm.groupId)).head?)
    let sorted := groupsData.mergeSort (fun a b => decide (b.createdAt ≤ a.createdAt))
    let nav1 := { nav with groups := sorted }
    match nav.activeGroup, sorted with
    | none, g :: _ => (db, { nav1 with activeGroup := some g.id })
    | _, _ => (db, nav1)
  else
    let g : Group :=
      { id := "group_" ++ toString now, name := "General",
        description := some "Default workspace", createdBy := userId,
        createdAt := now }
    let mem : GroupMember :=
      { id := "member_" ++ toString now, groupId := g.id, userId := userId,
        role := "admin" }
    let ch : Channel :=
      { id := "channel_" ++ toString now, groupId := g.id, name := "general",
        description := some "General discussion", isPrivate := false,
        createdBy := userId }
    ({ groups := db.groups ++ [g], groupMembers := db.groupMembers ++ [mem],
       channels := db.channels ++ [ch] },
     { groups := [g], channels := [ch], activeGroup := some g.id,
       activeChannel := some ch.id })

/-- Concatenate the segment texts, forgetting the highlight flags (used to
state that highlighting preserves the underlying body text). -/
def segsJoin : List (Bool × List Char) → List Char
  | [] => []
  | s :: rest => s.2 ++ segsJoin rest

/-! Concrete sample records, used by the counterexample and witness
theorems. -/

/-- A sample message: author `u1`, body `"hi"`, sent at epoch 0 ms. -/
def mA : Message :=
  { id := "1", channelId := "c", userId := "u1", content := "hi",
    messageType := "text", createdAt := 0, updatedAt := 0 }

/-- A sample message by the same author exactly 300,000 ms after `mA`. -/
def mB : Message :=
  { id := "2", channelId := "c", userId := "u1", content := "say hello world",
    messageType := "text", createdAt := 300000, updatedAt := 300000 }

/-- Sample: first of three messages — author `u1`, body containing "apple". -/
def mD1 : Message :=
  { id := "d1", channelId := "c", userId := "u1", content := "apple",
    messageType := "text", createdAt := 0, updatedAt := 0 }

/-- Sample: second of three — a different author, body without "apple". -/
def mD2 : Message :=
  { id := "d2", channelId := "c", userId := "u2", content := "banana",
    messageType := "text", createdAt := 1000, updatedAt := 1000 }

/-- Sample: third of three — author `u1` again, body containing "apple". -/
def mD3 : Message :=
  { id := "d3", channelId := "c", userId := "u1", content := "apple pie",
    messageType := "text", createdAt := 2000, updatedAt := 2000 }

/-- A sample text message whose body `"a b"` contains a space. -/
def mSpace : Message :=
  { id := "s", channelId := "c", userId := "u1", content := "a b",
    messageType := "text", createdAt := 0, updatedAt := 0 }

/-- An empty remote store. -/
def db0 : Db := { groups := [], groupMembers := [], channels := [] }

/-- The navigator state before any selection. -/
def nav0 : NavState :=
  { groups := [], channels := [], activeGroup := none, activeChannel := none }

end SlackClone

namespace SlackClone

/-! Helper lemmas about the feed assembler. -/

theorem feedGo_length (p : Message) (l : List Message) :
    (feedGo p l).length = l.length := by
  induction l generalizing p with
  | nil => rfl
  | cons m rest ih => simp [feedGo, ih]

theorem feedGo_fst (p : Message) (l : List Message) :
    (feedGo p l).map Prod.fst = l := by
  induction l generalizing p with
  | nil => rfl
  | cons m rest ih => simp [feedGo, ih]

theorem feedEntries_fst (l : List Message) : (feedEntries l).map Prod.fst = l := by
  cases l with
  | nil => rfl
  | cons m rest => simp [feedEntries, feedGo_fst]

theorem feedGo_split (x p : Message) (pre rest : List Message) :
    feedGo x (pre ++ p :: rest) = feedGo x (pre ++ [p]) ++ feedGo p rest := by
  induction pre generalizing x with
  | nil => simp [feedGo]
  | cons a pre ih => simp [feedGo, ih]

/-- Where the positional predecessor of `m` in the displayed list is `p`, the
entry produced for `m` carries the decision `showAvatar p m`, one position
after the prefix. -/
theorem feedEntries_decomp (pre : List Message) (p m : Message) (post : List Message) :
    ∃ l1 l2, feedEntries (pre ++ p :: m :: post) = l1 ++ (m, showAvatar p m) :: l2
      ∧ l1.length = pre.length + 1 := by
  cases pre with
  | nil =>
    exact ⟨[(p, true)], feedGo m post, by simp [feedEntries, feedGo], rfl⟩
  | cons a pre =>
    refine ⟨(a, true) :: feedGo a (pre ++ [p]), feedGo m post, ?_, ?_⟩
    · have h := feedGo_split a p pre (m :: post)
      simp [feedEntries, h, feedGo]
    · simp [feedGo_length]

/-- The feed branch of `assemble` displays exactly the filtered list with its
per-position grouping decisions. -/
theorem assemble_feed_eq (msgs : List Message) (q : String) (l : List (Message × Bool)) :
    assemble msgs q = .feed l → l = feedEntries (filterMessages msgs q) := by
  intro hl
  simp only [assemble] at hl
  split at hl
  · split at hl <;> cases hl
  · cases hl; rfl

/-- C1, counterexample: two consecutive same-author messages whose creation
timestamps are exactly 300,000 ms apart are displayed with the second
message's `showAvatar = false`, not `true` as the claim states (the source
comparison is strict: `gap > 300000`). -/
theorem claim1_grouping_counterexample :
    mA.userId = mB.userId ∧ mB.createdAt - mA.createdAt = 300000
    ∧ assemble [mA, mB] "" = .feed [(mA, true), (mB, false)] := by decide

/-- C1 (amended): for consecutive displayed same-author messages, the second
message's `showAvatar` is `false` whenever the timestamp gap is at most
300,000 ms (so a gap of exactly 300,000 ms yields `false`), and `true`
exactly when the gap strictly exceeds 300,000 ms. -/
theorem claim1_grouping_amended (p m : Message) (hu : p.userId = m.userId)
    (pre post : List Message) :
    (m.createdAt - p.createdAt ≤ 300000 → showAvatar p m = false)
    ∧ (300000 < m.createdAt - p.createdAt → showAvatar p m = true)
    ∧ ∃ l1 l2, feedEntries (pre ++ p :: m :: post) = l1 ++ (m, showAvatar p m) :: l2
        ∧ l1.length = pre.length + 1 := by
  refine ⟨?_, ?_, feedEntries_decomp pre p m post⟩
  · intro hle
    simp [showAvatar, hu]
    omega
  · intro hlt
    simp [showAvatar, hlt]

/-- C1, witness: the amended claim applied to the concrete 300,000 ms pair. -/
theorem claim1_grouping_amended_witness : showAvatar mA mB = false :=
  (claim1_grouping_amended mA mB rfl [] []).1 (by decide)

/-- C2: grouping decisions are computed against the filtered list's own
adjacency — in the rendered feed the first filtered message always gets
`true`, and the decision of each later message is `showAvatar` of its
predecessor in the filtered list (so a different filtered predecessor author
forces `true`), regardless of messages the filter hid. -/
theorem claim2_filtered_adjacency (msgs : List Message) (q : String) :
    (∀ l, assemble msgs q = .feed l → l = feedEntries (filterMessages msgs q))
    ∧ (∀ m rest, filterMessages msgs q = m :: rest →
        feedEntries (filterMessages msgs q) = (m, true) :: feedGo m rest)
    ∧ ∀ pre p m post, filterMessages msgs q = pre ++ p :: m :: post →
        (∃ l1 l2, feedEntries (filterMessages msgs q) = l1 ++ (m, showAvatar p m) :: l2
            ∧ l1.length = pre.length + 1)
        ∧ (p.userId ≠ m.userId → showAvatar p m = true) := by
  refine ⟨assemble_feed_eq msgs q, ?_, ?_⟩
  · intro m rest h
    rw [h]
    rfl
  · intro pre p m post h
    constructor
    · rw [h]
      exact feedEntries_decomp pre p m post
    · intro hne
      simp [showAvatar, hne]

/-- C2, witness: with messages `apple` (u1), `banana` (u2), `apple pie` (u1)
and filter `"apple"`, the middle different-author message is hidden and the
grouping is recomputed on the filtered list: `apple pie` directly follows
`apple` (same author, 2 s apart), so its avatar is hidden. -/
theorem claim2_filtered_adjacency_witness :
    filterMessages [mD1, mD2, mD3] "apple" = [mD1, mD3]
    ∧ feedEntries (filterMessages [mD1, mD2, mD3] "apple") = (mD1, true) :: feedGo mD1 [mD3]
    ∧ assemble [mD1, mD2, mD3] "apple" = .feed [(mD1, true), (mD3, false)] :=
  ⟨by decide,
   (claim2_filtered_adjacency [mD1, mD2, mD3] "apple").2.1 mD1 [mD3] (by decide),
   by decide⟩

/-- C3, counterexample: the filter text `" "` is non-empty and the body
`"hi"` does not contain it as a substring, yet the message passes the filter
(the source treats any whitespace-only query like the empty one). -/
theorem claim3_filter_counterexample :
    (" " : String) ≠ "" ∧ specMatches " " mA = false
    ∧ filterMessages [mA] " " = [mA] := by decide

/-- C3 (amended): the assembled output is exactly the subsequence of input
messages whose body contains the filter text as a case-insensitive
substring, in the original order, except that a filter that is empty *or
whitespace-only* passes every message; the output length is at most the
input length and strictly less when some message fails the source's match
predicate. -/
theorem claim3_filter_amended (msgs : List Message) (q : String) :
    (jsTrim q = "" → filterMessages msgs q = msgs)
    ∧ (jsTrim q ≠ "" → filterMessages msgs q = msgs.filter (fun m => specMatches q m))
    ∧ (filterMessages msgs q).Sublist msgs
    ∧ (filterMessages msgs q).length ≤ msgs.length
    ∧ ((∃ x ∈ msgs, messageMatches q x = false) →
        (filterMessages msgs q).length < msgs.length)
    ∧ (∀ l, assemble msgs q = .feed l → l.map Prod.fst = filterMessages msgs q) := by
  refine ⟨?_, ?_, List.filter_sublist msgs, List.length_filter_le _ msgs, ?_, ?_⟩
  · intro h
    simp [filterMessages, messageMatches, h]
  · intro h
    exact List.filter_congr (fun m _ => by simp [messageMatches, specMatches, h])
  · rintro ⟨x, hx, hp⟩
    refine Nat.lt_of_le_of_ne (List.length_filter_le _ msgs) (fun heq => ?_)
    have h2 : filterMessages msgs q = msgs := (List.filter_sublist msgs).eq_of_length heq
    have h3 : x ∈ filterMessages msgs q := by rw [h2]; exact hx
    rw [filterMessages, List.mem_filter] at h3
    simp [hp] at h3
  · intro l hl
    rw [assemble_feed_eq msgs q l hl]
    exact feedEntries_fst _

/-- C3, witness: with filter `"APPLE"` the output is the spec-side
case-insensitive-substring subsequence, and it is strictly shorter because
`banana` fails the match. -/
theorem claim3_filter_amended_witness :
    filterMessages [mD1, mD2, mD3] "APPLE" =
      List.filter (fun m => specMatches "APPLE" m) [mD1, mD2, mD3]
    ∧ (filterMessages [mD1, mD2, mD3] "APPLE").length <
        ([mD1, mD2, mD3] : List Message).length :=
  ⟨(claim3_filter_amended [mD1, mD2, mD3] "APPLE").2.1 (by decide),
   (claim3_filter_amended [mD1, mD2, mD3] "APPLE").2.2.2.2.1 ⟨mD2, by decide, by decide⟩⟩

/-- C4: confirming deletion removes from the local list exactly the records
bearing the given identifier — membership in the new list is membership in
the old one plus a different id, the relative order of the survivors is kept
— and this happens only when the remote delete succeeded; on failure the
list is unchanged and the error notice is shown. -/
theorem claim4_delete (msgs : List Message) (mid : String) :
    (confirmDelete true msgs mid).1 = msgs.filter (fun m => m.id != mid)
    ∧ (∀ m, m ∈ (confirmDelete true msgs mid).1 ↔ m ∈ msgs ∧ m.id ≠ mid)
    ∧ ((confirmDelete true msgs mid).1).Sublist msgs
    ∧ (confirmDelete true msgs mid).2 = .deleted
    ∧ confirmDelete false msgs mid = (msgs, .failed) := by
  refine ⟨rfl, ?_, ?_, rfl, rfl⟩
  · intro m
    simp [confirmDelete, handleMessageDeleted, List.mem_filter]
  · exact (List.filter_sublist msgs :
      (msgs.filter (fun m => m.id != mid)).Sublist msgs)

/-- C4, witness: deleting id `"1"` removes only `mA`; a failed remote call
leaves the list untouched and reports the failure. -/
theorem claim4_delete_witness :
    (confirmDelete true [mA, mB] "1").1 = [mB]
    ∧ confirmDelete false [mA, mB] "1" = ([mA, mB], .failed) :=
  ⟨((claim4_delete [mA, mB] "1").1).trans (by decide),
   (claim4_delete [mA, mB] "1").2.2.2.2⟩

/-- C5: submitting a draft that trims to empty is a no-op (no callback, state
unchanged); a draft that is non-empty after trimming is sent exactly trimmed
and the composer is reset: draft cleared, preview off, collapsed. -/
theorem claim5_submit (s : ComposerState) :
    (jsTrim s.message = "" → handleSend s = (s, none))
    ∧ (jsTrim s.message ≠ "" →
        handleSend s =
          ({ message := "", isPreviewMode := false, isExpanded := false },
           some (jsTrim s.message))) := by
  constructor
  · intro h
    simp [handleSend, h]
  · intro h
    simp [handleSend, h]

/-- C5, witness: sending `"  hi  "` sends `"hi"` and collapses the composer;
a whitespace-only draft is a no-op. -/
theorem claim5_submit_witness :
    handleSend ⟨"  hi  ", true, true⟩ = (⟨"", false, false⟩, some "hi")
    ∧ handleSend ⟨"   ", true, true⟩ = (⟨"   ", true, true⟩, none) :=
  ⟨((claim5_submit ⟨"  hi  ", true, true⟩).2 (by decide)).trans (by decide),
   (claim5_submit ⟨"   ", true, true⟩).1 (by decide)⟩

/-- C8: the renderer produces markdown content when and only when the
message's type tag is `"text"`; every other tag yields the fixed
`Unsupported message type: {tag}` placeholder (the renderer is a total
function — no exception). -/
theorem claim8_render_dispatch (m : Message) (q : String) :
    ((∃ raw, renderBody m q = .markdown raw) ↔ m.messageType = "text")
    ∧ (m.messageType ≠ "text" →
        renderBody m q = .unsupported ("Unsupported message type: " ++ m.messageType)) := by
  constructor
  · constructor
    · rintro ⟨raw, hr⟩
      by_cases h : m.messageType = "text"
      · exact h
      · simp [renderBody, h] at hr
    · intro h
      exact ⟨if q = "" then m.content else highlightSearchTerm m.content q,
             by simp [renderBody, h]⟩
  · intro h
    simp [renderBody, h]

/-- C8, witness: a `"file"`-typed message renders the interpolated
placeholder. -/
theorem claim8_render_dispatch_witness :
    renderBody { mA with messageType := "file" } "" =
      .unsupported "Unsupported message type: file" :=
  ((claim8_render_dispatch { mA with messageType := "file" } "").2 (by decide)).trans
    (by decide)

/-- C9: toggling between edit and preview mode — in either direction, any
number of times — changes only the preview flag: the draft text and the
expansion flag are untouched, and two toggles restore the state exactly. -/
theorem claim9_preview_frame (s : ComposerState) (n : Nat) :
    (togglePreview s).message = s.message
    ∧ (togglePreview s).isExpanded = s.isExpanded
    ∧ (togglePreview s).isPreviewMode = !s.isPreviewMode
    ∧ togglePreview (togglePreview s) = s
    ∧ (togglePreview^[n] s).message = s.message
    ∧ (togglePreview^[n] s).isExpanded = s.isExpanded := by
  refine ⟨rfl, rfl, rfl, by simp [togglePreview], ?_, ?_⟩
  · induction n generalizing s with
    | zero => rfl
    | succ k ih =>
      rw [Function.iterate_succ_apply]
      exact ih (togglePreview s)
  · induction n generalizing s with
    | zero => rfl
    | succ k ih =>
      rw [Function.iterate_succ_apply]
      exact ih (togglePreview s)

/-- C10: a whitespace-only filter behaves exactly like the empty filter:
every message passes, highlighting leaves every body untouched, rendering is
unchanged, and an empty list shows the empty-conversation state rather than
the no-results state. -/
theorem claim10_blank_filter (msgs : List Message) (q : String) (h : jsTrim q = "") :
    filterMessages msgs q = msgs
    ∧ assemble msgs q = assemble msgs ""
    ∧ (∀ text, highlightSearchTerm text q = text)
    ∧ (∀ m : Message, renderBody m q = renderBody m "")
    ∧ (msgs = [] → assemble msgs q = .emptyConversation) := by
  have hf : filterMessages msgs q = msgs := by
    simp [filterMessages, messageMatches, h]
  have h0 : jsTrim "" = "" := rfl
  have hf0 : filterMessages msgs "" = msgs := by
    simp [filterMessages, messageMatches, h0]
  have hh : ∀ text, highlightSearchTerm text q = text := fun t => by
    simp [highlightSearchTerm, h]
  refine ⟨hf, ?_, hh, ?_, ?_⟩
  · simp [assemble, hf, hf0, h, h0]
  · intro m
    by_cases hq : q = ""
    · rw [hq]
    · by_cases ht : m.messageType = "text"
      · simp [renderBody, hq, ht, hh]
      · simp [renderBody, ht]
  · intro hm
    subst hm
    simp [assemble, hf, h]

/-- C10, witness: the blank query `" "` passes `mA`, highlights nothing in
`"a b"`, and reports the empty-conversation state on an empty list. -/
theorem claim10_blank_filter_witness :
    filterMessages [mA] " " = [mA]
    ∧ highlightSearchTerm "a b" " " = "a b"
    ∧ assemble ([] : List Message) " " = .emptyConversation :=
  ⟨(claim10_blank_filter [mA] " " (by decide)).1,
   (claim10_blank_filter [] " " (by decide)).2.2.1 "a b",
   (claim10_blank_filter [] " " (by decide)).2.2.2.2 rfl⟩

/-! Helper lemmas about the search-highlighting scan. -/

theorem isPrefixCI_append (t : List Char) :
    ∀ u w, isPrefixCI t u = true → isPrefixCI t (u ++ w) = true := by
  induction t with
  | nil => intro u w _; simp [isPrefixCI]
  | cons a as ih =>
    intro u w h
    cases u with
    | nil => simp [isPrefixCI] at h
    | cons b bs =>
      simp [isPrefixCI] at h ⊢
      exact ⟨h.1, ih bs w h.2⟩

theorem isPrefixCI_take_lower (t : List Char) :
    ∀ l, isPrefixCI t l = true →
      (l.take t.length).map Char.toLower = t.map Char.toLower := by
  induction t with
  | nil => intro l _; simp
  | cons a as ih =>
    intro l h
    cases l with
    | nil => simp [isPrefixCI] at h
    | cons b bs =>
      simp [isPrefixCI] at h
      simp [List.take_succ_cons, h.1, ih bs h.2]

theorem hlSegs_join (t0 : Char) (ts : List Char) (l : List Char) :
    segsJoin (hlSegs t0 ts l) = l := by
  induction l using hlSegs.induct t0 ts with
  | case1 => simp [hlSegs, segsJoin]
  | case2 c rest h ih =>
    rw [hlSegs, if_pos h]
    simp [segsJoin, ih, List.take_succ_cons]
  | case3 c rest h seg more heq ih =>
    rw [hlSegs, if_neg h, heq]
    rw [heq] at ih
    simp [segsJoin] at ih ⊢
    simp [ih]
  | case4 c rest h hno ih =>
    rw [hlSegs, if_neg h]
    rcases hseg : hlSegs t0 ts rest with _ | ⟨⟨b, seg⟩, more⟩
    · rw [hseg] at ih
      simp [segsJoin, hseg]
      simpa [segsJoin] using ih.symm
    · cases b
      · exact absurd hseg (by intro hh; exact hno seg more hh)
      · rw [hseg] at ih
        simp [segsJoin] at ih ⊢
        simp [ih]

theorem hlSegs_true_lower (t0 : Char) (ts : List Char) (l : List Char) :
    ∀ s ∈ hlSegs t0 ts l, s.1 = true →
      s.2.map Char.toLower = (t0 :: ts).map Char.toLower := by
  induction l using hlSegs.induct t0 ts with
  | case1 => simp [hlSegs]
  | case2 c rest h ih =>
    rw [hlSegs, if_pos h]
    intro s hs hs1
    rcases List.mem_cons.mp hs with rfl | hs
    · exact isPrefixCI_take_lower (t0 :: ts) (c :: rest) h
    · exact ih s hs hs1
  | case3 c rest h seg more heq ih =>
    rw [hlSegs, if_neg h, heq]
    intro s hs hs1
    rcases List.mem_cons.mp hs with rfl | hs
    · simp at hs1
    · exact ih s (by rw [heq]; exact List.mem_cons_of_mem _ hs) hs1
  | case4 c rest h hno ih =>
    rw [hlSegs, if_neg h]
    rcases hseg : hlSegs t0 ts rest with _ | ⟨⟨b, seg⟩, more⟩
    · intro s hs hs1
      rcases List.mem_cons.mp hs with rfl | hs
      · simp at hs1
      · simp at hs
    · cases b
      · exact absurd hseg (fun hh => hno seg more hh)
      · intro s hs hs1
        rcases List.mem_cons.mp hs with rfl | hs
        · simp at hs1
        · exact ih s (by rw [hseg]; exact hs) hs1

theorem hlSegs_first_false_prefix (t0 : Char) (ts : List Char) (l : List Char) :
    ∀ seg more, hlSegs t0 ts l = (false, seg) :: more → ∃ w, seg ++ w = l := by
  induction l using hlSegs.induct t0 ts with
  | case1 =>
    intro seg more heq
    rw [hlSegs] at heq
    cases heq
  | case2 c rest h ih =>
    intro seg more heq
    rw [hlSegs, if_pos h] at heq
    cases heq
  | case3 c rest h seg0 more0 heq0 ih =>
    intro seg more heq
    rw [hlSegs, if_neg h, heq0] at heq
    injection heq with h1 h2
    injection h1 with hb h3
    subst h3
    obtain ⟨w, hw⟩ := ih seg0 more0 heq0
    exact ⟨w, by simp [hw]⟩
  | case4 c rest h hno ih =>
    intro seg more heq
    rw [hlSegs, if_neg h] at heq
    rcases hseg : hlSegs t0 ts rest with _ | ⟨⟨b, seg1⟩, more1⟩
    · rw [hseg] at heq
      injection heq with h1 h2
      injection h1 with hb h3
      subst h3
      exact ⟨rest, rfl⟩
    · cases b
      · exact absurd hseg (fun hh => hno seg1 more1 hh)
      · rw [hseg] at heq
        injection heq with h1 h2
        injection h1 with hb h3
        subst h3
        exact ⟨rest, rfl⟩

theorem singleton_nomatch (t0 : Char) (ts : List Char) (c : Char) (rest : List Char)
    (h : ¬ isPrefixCI (t0 :: ts) (c :: rest) = true) :
    containsCI (t0 :: ts) [c] = false := by
  cases hx : isPrefixCI (t0 :: ts) [c]
  · simp [containsCI, hx]
  · exact absurd (by simpa using isPrefixCI_append (t0 :: ts) [c] rest hx) h

theorem hlSegs_false_nomatch (t0 : Char) (ts : List Char) (l : List Char) :
    ∀ s ∈ hlSegs t0 ts l, s.1 = false → containsCI (t0 :: ts) s.2 = false := by
  induction l using hlSegs.induct t0 ts with
  | case1 => simp [hlSegs]
  | case2 c rest h ih =>
    rw [hlSegs, if_pos h]
    intro s hs hs1
    rcases List.mem_cons.mp hs with rfl | hs
    · simp at hs1
    · exact ih s hs hs1
  | case3 c rest h seg more heq ih =>
    rw [hlSegs, if_neg h, heq]
    intro s hs hs1
    rcases List.mem_cons.mp hs with rfl | hs
    · have hIH : containsCI (t0 :: ts) seg = false :=
        ih (false, seg) (by rw [heq]; exact List.mem_cons_self _ _) rfl
      have hpre : isPrefixCI (t0 :: ts) (c :: seg) = false := by
        cases hx : isPrefixCI (t0 :: ts) (c :: seg)
        · rfl
        · exfalso
          apply h
          obtain ⟨w, hw⟩ := hlSegs_first_false_prefix t0 ts rest seg more heq
          have hap := isPrefixCI_append (t0 :: ts) (c :: seg) w hx
          rw [show (c :: seg) ++ w = c :: rest from by simp [hw]] at hap
          exact hap
      simp [containsCI, hpre, hIH]
    · exact ih s (by rw [heq]; exact List.mem_cons_of_mem _ hs) hs1
  | case4 c rest h hno ih =>
    rw [hlSegs, if_neg h]
    rcases hseg : hlSegs t0 ts rest with _ | ⟨⟨b, seg1⟩, more1⟩
    · intro s hs hs1
      rcases List.mem_cons.mp hs with rfl | hs
      · exact singleton_nomatch t0 ts c rest h
      · simp at hs
    · cases b
      · exact absurd hseg (fun hh => hno seg1 more1 hh)
      · intro s hs hs1
        rcases List.mem_cons.mp hs with rfl | hs
        · exact singleton_nomatch t0 ts c rest h
        · exact ih s (by rw [hseg]; exact hs) hs1

/-- C6, counterexample: the filter term `" "` is non-empty and occurs
case-insensitively in the body `"a b"`, yet no highlight marker is injected:
the raw text handed to the markdown renderer is the body unchanged (the
source returns early for any term that trims to empty). -/
theorem claim6_highlight_counterexample :
    (" " : String) ≠ "" ∧ containsCI (" " : String).data ("a b" : String).data = true
    ∧ renderBody mSpace " " = .markdown "a b"
    ∧ hasSub markOpen.data (highlightSearchTerm "a b" " ").data = false := by decide

/-- C6 (amended): for every filter term that is non-empty *after trimming*
and contains *no JavaScript regex metacharacters* (outside that domain the
source interpolates the term into regex syntax — or throws on an invalid
pattern — rather than searching for it literally), the raw body text
decomposes into segments in which every highlighted segment is a
case-insensitive copy of the term wrapped in the mark tags, every
unhighlighted segment contains no case-insensitive occurrence of the term,
concatenating the segments restores the body unchanged, and the
mark-injected raw text is exactly what is handed to the markdown renderer
(i.e. the substitution happens before markdown parsing). -/
theorem claim6_highlight_amended (text term : String) (h : jsTrim term ≠ "")
    (hlit : regexLiteral term = true) :
    ∃ t0 ts, term.data = t0 :: ts
    ∧ highlightSearchTerm text term = String.mk (renderSegs (hlSegs t0 ts text.data))
    ∧ segsJoin (hlSegs t0 ts text.data) = text.data
    ∧ (∀ s ∈ hlSegs t0 ts text.data, s.1 = true →
        s.2.map Char.toLower = term.data.map Char.toLower)
    ∧ (∀ s ∈ hlSegs t0 ts text.data, s.1 = false →
        containsCI term.data s.2 = false)
    ∧ ∀ m : Message, m.messageType = "text" →
        renderBody m term = .markdown (highlightSearchTerm m.content term) := by
  have hne : term ≠ "" := fun he => h (by rw [he]; rfl)
  obtain ⟨t0, ts, hdata⟩ : ∃ t0 ts, term.data = t0 :: ts := by
    cases term with
    | mk l =>
      cases l with
      | nil => exact absurd rfl hne
      | cons a as => exact ⟨a, as, rfl⟩
  refine ⟨t0, ts, hdata, ?_, hlSegs_join t0 ts text.data, ?_, ?_, ?_⟩
  · simp [highlightSearchTerm, h, hdata]
  · rw [hdata]
    exact hlSegs_true_lower t0 ts text.data
  · rw [hdata]
    exact hlSegs_false_nomatch t0 ts text.data
  · intro m hm
    simp [renderBody, hm, hne]

/-- C6, witness: the amended claim at body `"say Hello world"` and term
`"hello"` (non-blank, and free of regex metacharacters). -/
theorem claim6_highlight_amended_witness :
    ∃ t0 ts, ("hello" : String).data = t0 :: ts
    ∧ highlightSearchTerm "say Hello world" "hello" =
        String.mk (renderSegs (hlSegs t0 ts ("say Hello world" : String).data))
    ∧ segsJoin (hlSegs t0 ts ("say Hello world" : String).data) =
        ("say Hello world" : String).data
    ∧ (∀ s ∈ hlSegs t0 ts ("say Hello world" : String).data, s.1 = true →
        s.2.map Char.toLower = ("hello" : String).data.map Char.toLower)
    ∧ (∀ s ∈ hlSegs t0 ts ("say Hello world" : String).data, s.1 = false →
        containsCI ("hello" : String).data s.2 = false)
    ∧ ∀ m : Message, m.messageType = "text" →
        renderBody m "hello" = .markdown (highlightSearchTerm m.content "hello") :=
  claim6_highlight_amended "say Hello world" "hello" (by decide) (by decide)

/-- C7: for a user with zero workspace memberships, the bootstrap creates
exactly one workspace named "General", exactly one admin membership for that
user, and exactly one channel named "general", selects the new workspace and
channel as active, and a second run of the loader on the resulting state
creates nothing further (the membership now exists, so the populated branch
is taken and the store is not written). -/
theorem claim7_bootstrap (db : Db) (nav : NavState) (uid : String) (now : Int)
    (h : db.groupMembers.filter (fun gm => gm.userId == uid) = []) :
    ∃ g mem ch,
      g.name = "General" ∧ mem.role = "admin" ∧ mem.userId = uid ∧ mem.groupId = g.id
      ∧ ch.name = "general" ∧ ch.groupId = g.id
      ∧ (loadGroups db nav uid now).1.groups = db.groups ++ [g]
      ∧ (loadGroups db nav uid now).1.groupMembers = db.groupMembers ++ [mem]
      ∧ (loadGroups db nav uid now).1.channels = db.channels ++ [ch]
      ∧ (loadGroups db nav uid now).2 =
          { groups := [g], channels := [ch], activeGroup := some g.id,
            activeChannel := some ch.id }
      ∧ ∀ now2 : Int,
          (loadGroups (loadGroups db nav uid now).1 (loadGroups db nav uid now).2
            uid now2).1 = (loadGroups db nav uid now).1 := by
  have hrun : loadGroups db nav uid now =
      ({ groups := db.groups ++
           [{ id := "group_" ++ toString now, name := "General",
              description := some "Default workspace", createdBy := uid,
              createdAt := now }],
         groupMembers := db.groupMembers ++
           [{ id := "member_" ++ toString now, groupId := "group_" ++ toString now,
              userId := uid, role := "admin" }],
         channels := db.channels ++
           [{ id := "channel_" ++ toString now, groupId := "group_" ++ toString now,
              name := "general", description := some "General discussion",
              isPrivate := false, createdBy := uid }] },
       { groups := [{ id := "group_" ++ toString now, name := "General",
                      description := some "Default workspace", createdBy := uid,
                      createdAt := now }],
         channels := [{ id := "channel_" ++ toString now,
                        groupId := "group_" ++ toString now, name := "general",
                        description := some "General discussion", isPrivate := false,
                        createdBy := uid }],
         activeGroup := some ("group_" ++ toString now),
         activeChannel := some ("channel_" ++ toString now) }) := by
    simp [loadGroups, h]
  refine ⟨_, _, _, rfl, rfl, rfl, rfl, rfl, rfl,
    (congrArg (fun p => p.1.groups) hrun).trans rfl,
    (congrArg (fun p => p.1.groupMembers) hrun).trans rfl,
    (congrArg (fun p => p.1.channels) hrun).trans rfl,
    (congrArg Prod.snd hrun).trans rfl, ?_⟩
  intro now2
  rw [hrun]
  have hmem : (db.groupMembers ++
      [({ id := "member_" ++ toString now, groupId := "group_" ++ toString now,
          userId := uid, role := "admin" } : GroupMember)]).filter
        (fun gm => gm.userId == uid) =
      [{ id := "member_" ++ toString now, groupId := "group_" ++ toString now,
         userId := uid, role := "admin" }] := by
    rw [List.filter_append, h]
    simp
  simp [loadGroups, hmem]

/-- C7, witness: the bootstrap applied to an empty store — one group, one
membership, one channel, and an idempotent second run. -/
theorem claim7_bootstrap_witness :
    (loadGroups db0 nav0 "u1" 7).1.groups.length = 1
    ∧ (loadGroups db0 nav0 "u1" 7).1.groupMembers.length = 1
    ∧ (loadGroups db0 nav0 "u1" 7).1.channels.length = 1
    ∧ (loadGroups (loadGroups db0 nav0 "u1" 7).1 (loadGroups db0 nav0 "u1" 7).2
        "u1" 9).1 = (loadGroups db0 nav0 "u1" 7).1 := by
  obtain ⟨g, mem, ch, _, _, _, _, _, _, hg, hm, hc, _, htwice⟩ :=
    claim7_bootstrap db0 nav0 "u1" 7 rfl
  refine ⟨?_, ?_, ?_, htwice 9⟩
  · rw [hg]
    rfl
  · rw [hm]
    rfl
  · rw [hc]
    rfl

end SlackClone
